import Mathlib

/-!
Verification of the MAF (Multiple Alignment Format) reader/writer core of
`src/include/sharedMaf.c`: the line parser, the block segmentation engine
(header + body state machine with its one-line lookahead), the derived-view
builders and the writer.  The file stream is modelled as a list of
newline-stripped lines (the `de_getline` interface); `-1`/end-of-stream is
the end of the list.  Fatal `exit` paths are modelled as `Except.error`.
All machine integers are `Nat` with explicit reduction modulo `2^32`
(`u32`) where the C `uint32_t` arithmetic can wrap.
-/

set_option maxHeartbeats 1000000

namespace MafTools

/-- Model of C `isspace` (the characters it accepts in the "C" locale). -/
def isSpaceChar (c : Char) : Bool :=
  c = ' ' || c = '\t' || c = '\n' || c = '\x0b' || c = '\x0c' || c = '\r'

/-- `maf_isBlankLine`: true iff every character of the line is whitespace. -/
def maf_isBlankLine (s : String) : Bool :=
  s.toList.all isSpaceChar

/-- `line[0]` in C: the first character, or NUL for the empty string. -/
def firstChar (s : String) : Char := s.toList.headD (Char.ofNat 0)

/-- `tkn[0]` in C on a token already held as a character list. -/
def headCharL (cs : List Char) : Char := cs.headD (Char.ofNat 0)

/-- The delimiters of `strtok(.., " \t")`. -/
def isDelim (c : Char) : Bool := c = ' ' || c = '\t'

def tokenizeAux : List Char → List Char → List (List Char)
  | [], acc => if acc.isEmpty then [] else [acc.reverse]
  | c :: cs, acc =>
    if isDelim c then
      if acc.isEmpty then tokenizeAux cs [] else acc.reverse :: tokenizeAux cs []
    else tokenizeAux cs (c :: acc)

/-- Repeated `strtok(cline, " \t")`: the maximal runs of non-delimiter
characters, in order.  `strtok` never yields empty tokens. -/
def tokenize (s : String) : List (List Char) := tokenizeAux s.toList []

/-- `strtoul(tkn, NULL, 10)` on a token: the leading run of decimal digits
(0 if there is none). -/
def strtoul10 (cs : List Char) : Nat :=
  (cs.takeWhile Char.isDigit).foldl (fun a c => a * 10 + (c.toNat - 48)) 0

/-- Truncation on assignment to a C `uint32_t`. -/
def u32 (n : Nat) : Nat := n % 4294967296

/-- The fatal exits of the C code, surfaced as error values:
`maf_checkForPrematureMafEnd`, `maf_failBadFormat` (with the 1-based line
number and the message) and the "no valid header" exit. -/
inductive MafError where
  | prematureEnd : MafError
  | badFormat : Nat → String → MafError
  | noValidHeader : MafError
deriving DecidableEq, Repr

/-- `struct mafLine` (the `next` pointer is replaced by list structure in
`MafBlock`).  NULL string fields are modelled as empty. -/
structure MafLine where
  line : String
  lineNumber : Nat
  type : Char
  species : List Char
  start : Nat
  length : Nat
  strand : Char
  sourceLength : Nat
  sequence : List Char
deriving DecidableEq, Repr

/-- `struct mafBlock` (the `headLine`/`tailLine` singly linked list is the
`lines` field; the `next` pointer is replaced by list structure in callers). -/
structure MafBlock where
  lines : List MafLine
  lineNumber : Nat
  numberOfLines : Nat
  numberOfSequences : Nat
deriving DecidableEq, Repr

/-- `struct mafFileApi` for reading: the line counter, the remaining stream
and the one-line `lastLine` lookahead buffer. -/
structure ReadState where
  lineNumber : Nat
  input : List String
  lastLine : Option String
deriving DecidableEq, Repr

/-- The fields of `maf_newMafLineFromString` before any tokenization
(also the final value for every non-`s` line). -/
def mkBaseLine (s : String) (ln : Nat) : MafLine :=
  { line := s, lineNumber := ln, type := firstChar s, species := [],
    start := 0, length := 0, strand := Char.ofNat 0, sourceLength := 0,
    sequence := [] }

def msgFieldLineDef : String :=
  r"Unable to separate line on tabs and spaces at line definition field."
def msgFieldName : String :=
  r"Unable to separate line on tabs and spaces at name field."
def msgFieldStart : String :=
  r"Unable to separate line on tabs and spaces at start position field."
def msgFieldLength : String :=
  r"Unable to separate line on tabs and spaces at length position field."
def msgFieldStrand : String :=
  r"Unable to separate line on tabs and spaces at strand field."
def msgFieldSourceLength : String :=
  r"Unable to separate line on tabs and spaces at source length field."
def msgFieldSequence : String :=
  r"Unable to separate line on tabs and spaces at sequence field."
def strandMsgPre : String :=
  r"Strand must be either + or -, not "

/-- The message built by `sprintf` for a bad strand character. -/
def strandErrMsg (c : Char) : String := (strandMsgPre.push c).push '.'

/-- `maf_newMafLineFromString`: classify by the first character; tokenize
`s` lines into the 7 tokens `s species start length strand srcLength seq`,
failing fatally (with the line number) at the first missing field, and
rejecting a strand token whose first character is neither `-` nor `+`. -/
def maf_newMafLineFromString (s : String) (lineNumber : Nat) :
    Except MafError MafLine :=
  if firstChar s ≠ 's' then .ok (mkBaseLine s lineNumber) else
  match tokenize s with
  | [] => .error (.badFormat lineNumber msgFieldLineDef)
  | [_] => .error (.badFormat lineNumber msgFieldName)
  | [_, _] => .error (.badFormat lineNumber msgFieldStart)
  | [_, _, _] => .error (.badFormat lineNumber msgFieldLength)
  | [_, _, _, _] => .error (.badFormat lineNumber msgFieldStrand)
  | _ :: t1 :: t2 :: t3 :: t4 :: rest =>
    if headCharL t4 ≠ '-' ∧ headCharL t4 ≠ '+' then
      .error (.badFormat lineNumber (strandErrMsg (headCharL t4)))
    else
      match rest with
      | [] => .error (.badFormat lineNumber msgFieldSourceLength)
      | [_] => .error (.badFormat lineNumber msgFieldSequence)
      | t5 :: t6 :: _ =>
        .ok { mkBaseLine s lineNumber with
              species := t1
              start := u32 (strtoul10 t2)
              length := u32 (strtoul10 t3)
              strand := headCharL t4
              sourceLength := u32 (strtoul10 t5)
              sequence := t6 }

/-- `maf_mafLine_getPositiveCoord`: `start` on `+`, otherwise the
`uint32_t` computation `sourceLength - (start + 1)`. -/
def maf_mafLine_getPositiveCoord (ml : MafLine) : Nat :=
  if ml.strand = '+' then ml.start
  else u32 (ml.sourceLength + 4294967296 - u32 (ml.start + 1))

/-- `maf_mafLine_getPositiveLeftCoord`: `start` on `+`, otherwise the
`uint32_t` computation `sourceLength - (start + length)`. -/
def maf_mafLine_getPositiveLeftCoord (ml : MafLine) : Nat :=
  if ml.strand = '+' then ml.start
  else u32 (ml.sourceLength + 4294967296 - u32 (ml.start + ml.length))

/-- One matrix row: `strncpy(row, seq, m)` with `row[m] = NUL`, i.e. the
sequence truncated to `m` characters and NUL-padded up to `m`. -/
def mkRow (m : Nat) (seq : List Char) : List Char :=
  seq.take m ++ List.replicate (m - seq.length) (Char.ofNat 0)

/-- The loop of `maf_mafBlock_getSequenceMatrix`.  The inner
`while (maf_mafLine_getType(ml) != 's')` has no list-end case: reaching the
end of the list inside it dereferences NULL, modelled as `none`. -/
def matrixLoop (m : Nat) : List MafLine → Option (List (List Char))
  | [] => some []
  | l :: rest =>
    if l.type = 's' then
      (matrixLoop m rest).map (fun rs => mkRow m l.sequence :: rs)
    else
      match rest with
      | [] => none
      | r :: t => matrixLoop m (r :: t)

/-- `maf_mafBlock_getSequenceMatrix` (the row count `n` only sizes the
allocation in C and does not steer the loop). -/
def maf_mafBlock_getSequenceMatrix (mb : MafBlock) (_n m : Nat) :
    Option (List (List Char)) :=
  matrixLoop m mb.lines

/-- `maf_mafBlock_getStrandArray`: NULL when `numberOfSequences` is zero,
otherwise the strand of each `s` line in order, NUL-terminated. -/
def maf_mafBlock_getStrandArray (mb : MafBlock) : Option (List Char) :=
  if mb.numberOfSequences = 0 then none
  else some ((mb.lines.filter (fun l => l.type = 's')).map (fun l => l.strand)
    ++ [Char.ofNat 0])

/-- `maf_mafBlock_getMafLineArray_seqOnly`: NULL when `numberOfSequences`
is zero, otherwise the `s`-kind line records in order. -/
def maf_mafBlock_getMafLineArray_seqOnly (mb : MafBlock) :
    Option (List MafLine) :=
  if mb.numberOfSequences = 0 then none
  else some (mb.lines.filter (fun l => l.type = 's'))

/-- `maf_writeBlock`: each record's verbatim `raw` line, then one blank
line.  Output is modelled as the list of written lines. -/
def maf_writeBlock (mb : MafBlock) : List String :=
  mb.lines.map (fun ml => ml.line) ++ [String.mk []]

/-- `maf_writeAll`: every block via `maf_writeBlock`, then one more blank
line. -/
def maf_writeAll (mbs : List MafBlock) : List String :=
  (mbs.map maf_writeBlock).flatten ++ [String.mk []]

def trackChars : List Char := ['t', 'r', 'a', 'c', 'k']
def mafChars : List Char := ['#', '#', 'm', 'a', 'f']

/-- `strncmp(s, p, |p|) == 0` for a non-NUL pattern `p`: `p` is a prefix
of `s`. -/
def prefixOfL : List Char → List Char → Bool
  | [], _ => true
  | _ :: _, [] => false
  | p :: ps, c :: cs => p == c && prefixOfL ps cs

/-- `strncmp(line, "track", 5) == 0`. -/
def startsWithTrack (s : String) : Bool := prefixOfL trackChars s.toList

/-- `strncmp(line, "##maf", 5) == 0`. -/
def startsWithMaf (s : String) : Bool := prefixOfL mafChars s.toList

/-- The line record built for header content: `maf_newMafLine` plus the
`line`, `type = 'h'` and `lineNumber` assignments of `maf_readBlockHeader`. -/
def mkHLine (l : String) (ln : Nat) : MafLine :=
  { line := l, lineNumber := ln, type := 'h', species := [], start := 0,
    length := 0, strand := Char.ofNat 0, sourceLength := 0, sequence := [] }

/-- Header records for consecutive lines starting at line number `ln`. -/
def hLines : List String → Nat → List MafLine
  | [], _ => []
  | l :: ls, ln => mkHLine l ln :: hLines ls (ln + 1)

/-- The continuation condition of the header eat-up loop:
`line[0] != 'a' && !maf_isBlankLine(line)`. -/
def HCond (l : String) : Prop := firstChar l ≠ 'a' ∧ maf_isBlankLine l = false

instance (l : String) : Decidable (HCond l) := by
  unfold HCond; exact inferInstance

/-- The `while (line[0] != 'a' && !maf_isBlankLine(line))` loop of
`maf_readBlockHeader`: `line` is the current (already read and counted)
line, `ln` the file-session line counter, and the list argument the
remaining stream.  On exit an `a` line is buffered into `lastLine`. -/
def maf_headerLoop (hdr : MafBlock) (line : String) (ln : Nat) :
    List String → Except MafError (MafBlock × ReadState)
  | [] =>
    if HCond line then .error .prematureEnd
    else .ok (hdr,
      { lineNumber := ln
        input := []
        lastLine := if firstChar line = 'a' then some line else none })
  | next :: rest =>
    if HCond line then
      maf_headerLoop
        { hdr with
          lines := hdr.lines ++ [mkHLine line ln]
          lineNumber := ln + 1
          numberOfLines := hdr.numberOfLines + 1 }
        next (ln + 1) rest
    else .ok (hdr,
      { lineNumber := ln
        input := next :: rest
        lastLine := if firstChar line = 'a' then some line else none })

/-- `maf_readBlockHeader`: accept a `track` line and/or a `##maf` line
(each acceptance reads the following line), fail without either marker,
then eat lines into the header until a blank (discarded) or an `a` line
(buffered into the lookahead). -/
def maf_readBlockHeader (mfa : ReadState) :
    Except MafError (MafBlock × ReadState) :=
  match mfa.input with
  | [] => .error .prematureEnd
  | line0 :: rest0 =>
    let ln1 := mfa.lineNumber + 1
    if startsWithTrack line0 then
      match rest0 with
      | [] => .error .prematureEnd
      | line1 :: rest1 =>
        if startsWithMaf line1 then
          match rest1 with
          | [] => .error .prematureEnd
          | line2 :: rest2 =>
            maf_headerLoop
              { lines := [mkHLine line0 ln1, mkHLine line1 (ln1 + 1)]
                lineNumber := ln1 + 2
                numberOfLines := 2
                numberOfSequences := 0 } line2 (ln1 + 2) rest2
        else
          maf_headerLoop
            { lines := [mkHLine line0 ln1]
              lineNumber := ln1 + 1
              numberOfLines := 1
              numberOfSequences := 0 }
            line1 (ln1 + 1) rest1
    else if startsWithMaf line0 then
      match rest0 with
      | [] => .error .prematureEnd
      | line1 :: rest1 =>
        maf_headerLoop
          { lines := [mkHLine line0 ln1]
            lineNumber := ln1 + 1
            numberOfLines := 1
            numberOfSequences := 0 }
          line1 (ln1 + 1) rest1
    else .error .noValidHeader

/-- `maf_newMafBlock` with `thisBlock->lineNumber = mfa->lineNumber`. -/
def emptyBlockAt (ln : Nat) : MafBlock :=
  { lines := [], lineNumber := ln, numberOfLines := 0, numberOfSequences := 0 }

/-- Appending a parsed record to a block, maintaining the counters. -/
def appendMafLine (blk : MafBlock) (ml : MafLine) : MafBlock :=
  { blk with
    lines := blk.lines ++ [ml]
    numberOfLines := blk.numberOfLines + 1
    numberOfSequences :=
      blk.numberOfSequences + (if ml.type = 's' then 1 else 0) }

/-- The `while (de_getline(..) != -1)` loop of `maf_readBlockBody`: a blank
line is skipped while the block is empty and terminates it otherwise;
every non-blank line is parsed and appended.  Returns the block, the line
counter and the remaining stream. -/
def maf_bodyLoop (blk : MafBlock) (ln : Nat) :
    List String → Except MafError (MafBlock × Nat × List String)
  | [] => .ok (blk, ln, [])
  | line :: rest =>
    if maf_isBlankLine line then
      if blk.lines.isEmpty then maf_bodyLoop blk (ln + 1) rest
      else .ok (blk, ln + 1, rest)
    else
      match maf_newMafLineFromString line (ln + 1) with
      | .error e => .error e
      | .ok ml => maf_bodyLoop (appendMafLine blk ml) (ln + 1) rest

/-- `maf_readBlockBody`: parse a buffered lookahead line first (at the
current counter value, which is its line number), then run the read loop. -/
def maf_readBlockBody (mfa : ReadState) :
    Except MafError (MafBlock × ReadState) :=
  let start : Except MafError MafBlock :=
    match mfa.lastLine with
    | none => .ok (emptyBlockAt mfa.lineNumber)
    | some l =>
      (maf_newMafLineFromString l mfa.lineNumber).map
        (appendMafLine (emptyBlockAt mfa.lineNumber))
  match start with
  | .error e => .error e
  | .ok blk =>
    match maf_bodyLoop blk mfa.lineNumber mfa.input with
    | .error e => .error e
    | .ok (blk2, ln2, rest) =>
      .ok (blk2, { lineNumber := ln2, input := rest, lastLine := none })

/-- `maf_readBlock`: the header on the first call (`lineNumber == 0`),
a body block afterwards; an empty result block signals end of stream
(`none`, the C NULL return). -/
def maf_readBlock (mfa : ReadState) :
    Except MafError (Option (MafBlock × ReadState)) :=
  if mfa.lineNumber = 0 then
    match maf_readBlockHeader mfa with
    | .error e => .error e
    | .ok (blk, st) => .ok (if blk.lines.isEmpty then none else some (blk, st))
  else
    match maf_readBlockBody mfa with
    | .error e => .error e
    | .ok (blk, st) => .ok (if blk.lines.isEmpty then none else some (blk, st))

/-- The `maf_readAll` driver, with explicit fuel for the `while` loop. -/
def maf_readAllFuel : Nat → ReadState → Except MafError (List MafBlock)
  | 0, _ => .ok []
  | fuel + 1, mfa =>
    match maf_readBlock mfa with
    | .error e => .error e
    | .ok none => .ok []
    | .ok (some (blk, mfa2)) =>
      match maf_readAllFuel fuel mfa2 with
      | .error e => .error e
      | .ok blks => .ok (blk :: blks)

/-- `maf_readAll` on a fresh file session.  Every successful `maf_readBlock`
except at most one (a lookahead-only final block) consumes at least one
stream line, so `input.length + 2` units of fuel always cover the C loop. -/
def maf_readAll (input : List String) : Except MafError (List MafBlock) :=
  maf_readAllFuel (input.length + 2)
    { lineNumber := 0, input := input, lastLine := none }

/-- The raw text lines of a block, in order. -/
def blockRaws (b : MafBlock) : List String := b.lines.map (fun l => l.line)

/-- A concrete canonical well-formed input file: one-line header, one
blank separator, one alignment block, one trailing blank line. -/
def inC1 : List String :=
  [r"##maf version=1", r"", r"a score=0", r"s hg 0 2 + 10 AC", r""]

/-- An `s` line whose strand token is `+x` (first character `+`). -/
def sBadStrand : String := r"s hg 0 2 +x 10 AC"

/-- An `s` line whose strand token is `*x` (first character `*`). -/
def sStarStrand : String := r"s hg 0 2 *x 10 AC"

/-- A `-`-strand line with `start = 10`, `length = 5`, `sourceLength = 100`
(the example of the specification). -/
def mlC6 : MafLine :=
  { line := String.mk []
    lineNumber := 0
    type := 's'
    species := []
    start := 10
    length := 5
    strand := '-'
    sourceLength := 100
    sequence := [] }

/-- Concrete parsed records for matrix-builder blocks. -/
def mlC8a : MafLine := mkBaseLine (r"a score=0") 3

def mlC8s : MafLine :=
  { line := r"s hg 0 2 + 10 AC"
    lineNumber := 4
    type := 's'
    species := ['h', 'g']
    start := 0
    length := 2
    strand := '+'
    sourceLength := 10
    sequence := ['A', 'C'] }

def mlC8e : MafLine := mkBaseLine (r"e mm 0 2 + 10 AC") 5

/-- A well-formed block whose last line is a non-sequence line. -/
def blkC8 : MafBlock :=
  { lines := [mlC8a, mlC8s, mlC8e]
    lineNumber := 3
    numberOfLines := 3
    numberOfSequences := 1 }

/-- The same block without the trailing `e` line. -/
def blkC8ok : MafBlock :=
  { lines := [mlC8a, mlC8s]
    lineNumber := 3
    numberOfLines := 2
    numberOfSequences := 1 }

/-- A line on which `maf_newMafLineFromString` succeeds at every line
number, returning a record carrying the verbatim raw line and that line
number. -/
def parsesWithRaw (l : String) : Prop :=
  ∀ ln, ∃ ml, maf_newMafLineFromString l ln = .ok ml ∧
    ml.line = l ∧ ml.lineNumber = ln

/-- A line the body loop accepts: non-blank and parseable. -/
def goodBodyLine (l : String) : Prop :=
  maf_isBlankLine l = false ∧ parsesWithRaw l

/-- A well-formed header section: non-empty, opening with a `##maf` or
`track` marker line, all lines non-blank, the lines after the first not
starting with `a`. -/
def validHeaderLines (hs : List String) : Prop :=
  hs ≠ [] ∧
  (startsWithMaf (hs.headD (String.mk [])) = true ∨
    startsWithTrack (hs.headD (String.mk [])) = true) ∧
  (∀ l ∈ hs, maf_isBlankLine l = false) ∧
  (∀ l ∈ hs.tail, firstChar l ≠ 'a')

/-- One body segment of a well-formed file: a non-empty run of acceptable
block lines followed by a (possibly empty) run of blank separator lines. -/
def goodSeg (q : List String × List String) : Prop :=
  q.1 ≠ [] ∧ (∀ l ∈ q.1, goodBodyLine l) ∧
  (∀ l ∈ q.2, maf_isBlankLine l = true)

/-- Every segment except possibly the last is blank-terminated (only the
final block of a file may run into end-of-stream). -/
def sepsNonEmptyBetween : List (List String × List String) → Prop
  | [] => True
  | [_] => True
  | q :: r :: qs => q.2 ≠ [] ∧ sepsNonEmptyBetween (r :: qs)

/-- The text of a body section: each segment's block lines then its blank
separator lines. -/
def segJoin (qs : List (List String × List String)) : List String :=
  (qs.map (fun q => q.1 ++ q.2)).flatten

/-- The header terminator exists: either the first separator is non-empty
(a blank line follows the header) or the first block opens with an `a`
line directly after the header. -/
def firstTermOk : List String → List (List String × List String) → Prop
  | [], [] => False
  | [], q :: _ => firstChar (q.1.headD (String.mk [])) = 'a'
  | _ :: _, _ => True

/-- Modelled from the spec's words, for comparison with `maf_writeAll`:
output holding each block's raw lines with exactly one blank line between
consecutive blocks and exactly one trailing blank line. -/
def specRoundTripOutput (blocks : List MafBlock) : List String :=
  (List.intersperse [String.mk []] (blocks.map blockRaws)).flatten
    ++ [String.mk []]

/-- A file whose header is immediately followed by its first `a` line,
with no blank separator. -/
def inC7 : List String :=
  [r"track name=x", r"a score=0", r"s hg 0 2 + 10 AC", r""]

theorem parse_nonS (l : String) (ln : Nat) (h : firstChar l ≠ 's') :
    maf_newMafLineFromString l ln = .ok (mkBaseLine l ln) := by
  unfold maf_newMafLineFromString
  rw [if_pos h]

theorem parsesWithRaw_of_not_s (l : String) (h : firstChar l ≠ 's') :
    parsesWithRaw l :=
  fun ln => ⟨mkBaseLine l ln, parse_nonS l ln h, rfl, rfl⟩

theorem hLines_append (xs ys : List String) :
    ∀ n, hLines (xs ++ ys) n = hLines xs n ++ hLines ys (n + xs.length) := by
  induction xs with
  | nil => intro n; simp [hLines]
  | cons x xs ih =>
    intro n
    simp only [List.cons_append, hLines, List.length_cons, List.append_eq]
    rw [ih (n + 1), show n + (xs.length + 1) = n + 1 + xs.length from by omega]

theorem hLines_raws (xs : List String) :
    ∀ n, (hLines xs n).map (fun l => l.line) = xs := by
  induction xs with
  | nil => intro n; simp [hLines]
  | cons x xs ih => intro n; simp [hLines, mkHLine, ih]

theorem hLines_ne_nil (xs : List String) (n : Nat) (h : xs ≠ []) :
    hLines xs n ≠ [] := by
  cases xs with
  | nil => exact absurd rfl h
  | cons x xs => simp [hLines]

theorem not_HCond_of_blank (l : String) (hb : maf_isBlankLine l = true) :
    ¬ HCond l :=
  fun h => absurd hb (by simp [h.2])

theorem firstChar_ne_a_of_blank (l : String) (hb : maf_isBlankLine l = true) :
    firstChar l ≠ 'a' := by
  unfold maf_isBlankLine at hb
  unfold firstChar
  cases hs : l.toList with
  | nil => decide
  | cons c cs =>
    rw [hs] at hb
    simp only [List.all_cons, Bool.and_eq_true] at hb
    intro hc
    rw [List.headD_cons] at hc
    rw [hc] at hb
    exact absurd hb.1 (by decide)

theorem firstChar_of_maf (s : String) (h : startsWithMaf s = true) :
    firstChar s = '#' := by
  unfold startsWithMaf at h
  unfold firstChar
  cases hs : s.toList with
  | nil => rw [hs] at h; simp [mafChars, prefixOfL] at h
  | cons c cs =>
    rw [hs] at h
    simp only [mafChars, prefixOfL, Bool.and_eq_true, beq_iff_eq] at h
    rw [List.headD_cons]
    exact h.1.symm

theorem firstChar_of_track (s : String) (h : startsWithTrack s = true) :
    firstChar s = 't' := by
  unfold startsWithTrack at h
  unfold firstChar
  cases hs : s.toList with
  | nil => rw [hs] at h; simp [trackChars, prefixOfL] at h
  | cons c cs =>
    rw [hs] at h
    simp only [trackChars, prefixOfL, Bool.and_eq_true, beq_iff_eq] at h
    rw [List.headD_cons]
    exact h.1.symm

theorem not_track_of_maf (s : String) (h : startsWithMaf s = true) :
    startsWithTrack s = false := by
  by_cases ht : startsWithTrack s = true
  · have h1 := firstChar_of_maf s h
    have h2 := firstChar_of_track s ht
    rw [h1] at h2
    exact absurd h2 (by decide)
  · simpa using ht

theorem blank_of_not_HCond (r0 : String) (h : ¬ HCond r0)
    (ha : firstChar r0 ≠ 'a') : maf_isBlankLine r0 = true := by
  unfold HCond at h
  by_cases hb : maf_isBlankLine r0 = true
  · exact hb
  · exact absurd ⟨ha, by simpa using hb⟩ h

theorem maf_false_of_not_HCond (r0 : String) (h : ¬ HCond r0) :
    startsWithMaf r0 = false := by
  by_cases hm : startsWithMaf r0 = true
  · exfalso
    apply h
    have hc := firstChar_of_maf r0 hm
    refine ⟨by rw [hc]; decide, ?_⟩
    unfold maf_isBlankLine
    cases hs : r0.toList with
    | nil => unfold startsWithMaf at hm; rw [hs] at hm; simp [mafChars, prefixOfL] at hm
    | cons c cs =>
      have : c = '#' := by
        unfold firstChar at hc; rw [hs] at hc; simpa using hc
      simp [List.all_cons, this, isSpaceChar]
  · simpa using hm

/-- On exit condition, the header loop returns the block unchanged, with
the terminating line buffered exactly when it starts with `a`. -/
theorem maf_headerLoop_stop (hdr : MafBlock) (line : String) (ln : Nat)
    (input : List String) (h : ¬ HCond line) :
    maf_headerLoop hdr line ln input =
      .ok (hdr,
        { lineNumber := ln
          input := input
          lastLine := if firstChar line = 'a' then some line else none }) := by
  cases input <;> simp [maf_headerLoop, h]

/-- The header loop appends every accepted line as an `h` record with its
line number, stopping at the first terminator. -/
theorem maf_headerLoop_eat (ms : List String) :
    ∀ (hdr : MafBlock) (m : String) (ln : Nat) (r0 : String)
      (rest : List String),
    HCond m → (∀ l ∈ ms, HCond l) → ¬ HCond r0 →
    maf_headerLoop hdr m ln (ms ++ r0 :: rest) =
      .ok ({ lines := hdr.lines ++ hLines (m :: ms) ln
             lineNumber := ln + ms.length + 1
             numberOfLines := hdr.numberOfLines + ms.length + 1
             numberOfSequences := hdr.numberOfSequences },
           { lineNumber := ln + ms.length + 1
             input := rest
             lastLine := if firstChar r0 = 'a' then some r0 else none }) := by
  induction ms with
  | nil =>
    intro hdr m ln r0 rest hm _ hr0
    rw [List.nil_append]
    simp only [maf_headerLoop, if_pos hm]
    rw [maf_headerLoop_stop _ _ _ _ hr0]
    simp [hLines]
  | cons a as ih =>
    intro hdr m ln r0 rest hm hms hr0
    have ha : HCond a := hms a (by simp)
    have has : ∀ l ∈ as, HCond l := fun l hl => hms l (by simp [hl])
    rw [List.cons_append]
    simp only [maf_headerLoop, if_pos hm]
    rw [ih _ a (ln + 1) r0 rest ha has hr0]
    simp only [hLines, List.length_cons]
    have e1 : ln + (as.length + 1) + 1 = ln + 1 + as.length + 1 := by omega
    have e2 : hdr.numberOfLines + (as.length + 1) + 1 =
        hdr.numberOfLines + 1 + as.length + 1 := by omega
    rw [e1, e2]
    simp [List.append_assoc]

theorem readBlockHeader_step_maf (h0 l1 : String) (ht' : List String)
    (htrf : startsWithTrack h0 = false) (hm : startsWithMaf h0 = true) :
    maf_readBlockHeader { lineNumber := 0, input := h0 :: l1 :: ht', lastLine := none } =
      maf_headerLoop
        { lines := [mkHLine h0 1]
          lineNumber := 2
          numberOfLines := 1
          numberOfSequences := 0 } l1 2 ht' := by
  unfold maf_readBlockHeader
  simp [htrf, hm]

theorem readBlockHeader_step_track (h0 l1 : String) (ht' : List String)
    (htr : startsWithTrack h0 = true) (hmf : startsWithMaf l1 = false) :
    maf_readBlockHeader { lineNumber := 0, input := h0 :: l1 :: ht', lastLine := none } =
      maf_headerLoop
        { lines := [mkHLine h0 1]
          lineNumber := 2
          numberOfLines := 1
          numberOfSequences := 0 } l1 2 ht' := by
  unfold maf_readBlockHeader
  simp [htr, hmf]

theorem readBlockHeader_step_track_maf (h0 l1 l2 : String) (ht' : List String)
    (htr : startsWithTrack h0 = true) (hmf : startsWithMaf l1 = true) :
    maf_readBlockHeader
        { lineNumber := 0, input := h0 :: l1 :: l2 :: ht', lastLine := none } =
      maf_headerLoop
        { lines := [mkHLine h0 1, mkHLine l1 2]
          lineNumber := 3
          numberOfLines := 2
          numberOfSequences := 0 } l2 3 ht' := by
  unfold maf_readBlockHeader
  simp [htr, hmf]

/-- Reading the header of a well-formed file consumes exactly the header
lines (as `h` records numbered from 1) plus the terminator, which is
buffered iff it starts with `a`. -/
theorem maf_readBlockHeader_wf (hs : List String) (r0 : String)
    (rest : List String) (hwf : validHeaderLines hs) (hr0 : ¬ HCond r0) :
    maf_readBlockHeader
        { lineNumber := 0, input := hs ++ r0 :: rest, lastLine := none } =
      .ok ({ lines := hLines hs 1
             lineNumber := hs.length + 1
             numberOfLines := hs.length
             numberOfSequences := 0 },
           { lineNumber := hs.length + 1
             input := rest
             lastLine := if firstChar r0 = 'a' then some r0 else none }) := by
  obtain ⟨hne, hmk, hnb, hna⟩ := hwf
  cases hs with
  | nil => exact absurd rfl hne
  | cons h0 ht =>
    simp only [List.headD_cons] at hmk
    have hht : ∀ l ∈ ht, HCond l := fun l hl =>
      ⟨hna l (by simpa using hl), hnb l (by simp [hl])⟩
    rcases hmk with hm | htr
    · have htrf : startsWithTrack h0 = false := not_track_of_maf h0 hm
      cases ht with
      | nil =>
        rw [List.cons_append, List.nil_append,
          readBlockHeader_step_maf h0 r0 rest htrf hm,
          maf_headerLoop_stop _ _ _ _ hr0]
        simp [hLines]
      | cons m ms =>
        rw [List.cons_append, List.cons_append,
          readBlockHeader_step_maf h0 m (ms ++ r0 :: rest) htrf hm,
          maf_headerLoop_eat ms _ m 2 r0 rest (hht m (by simp))
            (fun l hl => hht l (by simp [hl])) hr0]
        simp only [hLines, List.length_cons]
        have e1 : 2 + ms.length + 1 = ms.length + 1 + 1 + 1 := by omega
        rw [e1]
        simp
        omega
    · cases ht with
      | nil =>
        have hmf : startsWithMaf r0 = false := maf_false_of_not_HCond r0 hr0
        rw [List.cons_append, List.nil_append,
          readBlockHeader_step_track h0 r0 rest htr hmf,
          maf_headerLoop_stop _ _ _ _ hr0]
        simp [hLines]
      | cons m ms =>
        by_cases hmm : startsWithMaf m = true
        · cases ms with
          | nil =>
            rw [List.cons_append, List.cons_append, List.nil_append,
              readBlockHeader_step_track_maf h0 m r0 rest htr hmm,
              maf_headerLoop_stop _ _ _ _ hr0]
            simp [hLines]
          | cons m2 ms2 =>
            rw [List.cons_append, List.cons_append, List.cons_append,
              readBlockHeader_step_track_maf h0 m m2 (ms2 ++ r0 :: rest) htr hmm,
              maf_headerLoop_eat ms2 _ m2 3 r0 rest (hht m2 (by simp))
                (fun l hl => hht l (by simp [hl])) hr0]
            simp only [hLines, List.length_cons]
            have e1 : 3 + ms2.length + 1 = ms2.length + 1 + 1 + 1 + 1 := by omega
            rw [e1]
            simp
            omega
        · have hmf : startsWithMaf m = false := by simpa using hmm
          rw [List.cons_append, List.cons_append,
            readBlockHeader_step_track h0 m (ms ++ r0 :: rest) htr hmf,
            maf_headerLoop_eat ms _ m 2 r0 rest (hht m (by simp))
              (fun l hl => hht l (by simp [hl])) hr0]
          simp only [hLines, List.length_cons]
          have e1 : 2 + ms.length + 1 = ms.length + 1 + 1 + 1 := by omega
          rw [e1]
          simp
          omega

/-- While the block is still empty, the body loop skips blank lines. -/
theorem maf_bodyLoop_skip (bls : List String) :
    ∀ (blk : MafBlock) (ln : Nat) (rest : List String),
    (∀ l ∈ bls, maf_isBlankLine l = true) → blk.lines = [] →
    maf_bodyLoop blk ln (bls ++ rest) =
      maf_bodyLoop blk (ln + bls.length) rest := by
  induction bls with
  | nil => intro blk ln rest _ _; simp
  | cons b bs ih =>
    intro blk ln rest hb he
    have hb1 : maf_isBlankLine b = true := hb b (by simp)
    rw [List.cons_append]
    simp only [maf_bodyLoop]
    rw [if_pos hb1, if_pos (by simp [he]), List.length_cons,
      show ln + (bs.length + 1) = ln + 1 + bs.length from by omega]
    exact ih blk (ln + 1) rest (fun l hl => hb l (by simp [hl])) he

/-- Once the block is non-empty, the body loop appends each non-blank
parseable line, extending the record list and preserving the block's
`lineNumber`. -/
theorem maf_bodyLoop_accum (bs : List String) :
    ∀ (blk : MafBlock) (ln : Nat) (rest : List String),
    (∀ l ∈ bs, goodBodyLine l) → blk.lines ≠ [] →
    ∃ blk2 ext,
      maf_bodyLoop blk ln (bs ++ rest) =
        maf_bodyLoop blk2 (ln + bs.length) rest ∧
      blk2.lines = blk.lines ++ ext ∧
      ext.map (fun l => l.line) = bs ∧
      blk2.lineNumber = blk.lineNumber := by
  induction bs with
  | nil => intro blk ln rest _ _; exact ⟨blk, [], by simp, by simp, rfl, rfl⟩
  | cons b bs ih =>
    intro blk ln rest hg hne
    obtain ⟨hb, hp⟩ := hg b (by simp)
    obtain ⟨ml, hml, hraw, _⟩ := hp (ln + 1)
    have hstep : maf_bodyLoop blk ln ((b :: bs) ++ rest) =
        maf_bodyLoop (appendMafLine blk ml) (ln + 1) (bs ++ rest) := by
      rw [List.cons_append]
      simp only [maf_bodyLoop]
      rw [if_neg (by simp [hb]), hml]
    obtain ⟨blk2, ext, heq, hlines, hraws, hln2⟩ :=
      ih (appendMafLine blk ml) (ln + 1) rest
        (fun l hl => hg l (by simp [hl])) (by simp [appendMafLine])
    refine ⟨blk2, ml :: ext, ?_, ?_, ?_, ?_⟩
    · rw [hstep, heq, List.length_cons,
        show ln + (bs.length + 1) = ln + 1 + bs.length from by omega]
    · rw [hlines]; simp [appendMafLine, List.append_assoc]
    · simp [hraws, hraw]
    · rw [hln2]; simp [appendMafLine]

/-- A blank line terminates a non-empty block. -/
theorem maf_bodyLoop_end_blank (blk : MafBlock) (ln : Nat) (t : String)
    (tr : List String) (hne : blk.lines ≠ []) (ht : maf_isBlankLine t = true) :
    maf_bodyLoop blk ln (t :: tr) = .ok (blk, ln + 1, tr) := by
  simp only [maf_bodyLoop]
  rw [if_pos ht, if_neg (by simp [hne])]

theorem readBlockBody_none_eq (ln : Nat) (input : List String) :
    maf_readBlockBody { lineNumber := ln, input := input, lastLine := none } =
      match maf_bodyLoop (emptyBlockAt ln) ln input with
      | .error e => .error e
      | .ok (blk2, ln2, rest) =>
        .ok (blk2, { lineNumber := ln2, input := rest, lastLine := none }) :=
  rfl

theorem readBlockBody_some_ok_eq (ln : Nat) (input : List String)
    (a : String) (ml : MafLine)
    (hml : maf_newMafLineFromString a ln = .ok ml) :
    maf_readBlockBody
        { lineNumber := ln, input := input, lastLine := some a } =
      match maf_bodyLoop (appendMafLine (emptyBlockAt ln) ml) ln input with
      | .error e => .error e
      | .ok (blk2, ln2, rest) =>
        .ok (blk2, { lineNumber := ln2, input := rest, lastLine := none }) := by
  unfold maf_readBlockBody
  simp [hml, Except.map]

/-- A body read with no lookahead on `blanks ++ block ++ blank :: rest`:
skip the blanks, read the block, consume the terminating blank. -/
theorem readBlockBody_sep (bls bs tr : List String) (t : String) (ln : Nat)
    (hbl : ∀ l ∈ bls, maf_isBlankLine l = true)
    (hbs : bs ≠ []) (hg : ∀ l ∈ bs, goodBodyLine l)
    (ht : maf_isBlankLine t = true) :
    ∃ blk, maf_readBlockBody
        { lineNumber := ln, input := bls ++ bs ++ t :: tr, lastLine := none } =
      .ok (blk,
        { lineNumber := ln + bls.length + bs.length + 1
          input := tr
          lastLine := none }) ∧
      blockRaws blk = bs ∧ blk.lines ≠ [] ∧ blk.lineNumber = ln := by
  cases bs with
  | nil => exact absurd rfl hbs
  | cons b bs' =>
    obtain ⟨hb, hp⟩ := hg b (by simp)
    obtain ⟨ml, hml, hraw, _⟩ := hp (ln + bls.length + 1)
    have hskip := maf_bodyLoop_skip bls (emptyBlockAt ln) ln
      ((b :: bs') ++ t :: tr) hbl rfl
    have hstep : maf_bodyLoop (emptyBlockAt ln) (ln + bls.length)
        ((b :: bs') ++ t :: tr) =
        maf_bodyLoop (appendMafLine (emptyBlockAt ln) ml)
          (ln + bls.length + 1) (bs' ++ t :: tr) := by
      rw [List.cons_append]
      simp only [maf_bodyLoop]
      rw [if_neg (by simp [hb]), hml]
    obtain ⟨blk2, ext, heq, hlines, hraws, hln2⟩ :=
      maf_bodyLoop_accum bs' (appendMafLine (emptyBlockAt ln) ml)
        (ln + bls.length + 1) (t :: tr)
        (fun l hl => hg l (by simp [hl]))
        (by simp [appendMafLine, emptyBlockAt])
    have hend := maf_bodyLoop_end_blank blk2 (ln + bls.length + 1 + bs'.length)
      t tr (by rw [hlines]; simp [appendMafLine, emptyBlockAt]) ht
    refine ⟨blk2, ?_, ?_, ?_, ?_⟩
    · rw [readBlockBody_none_eq, List.append_assoc, hskip, hstep, heq, hend]
      rw [List.length_cons,
        show ln + bls.length + (bs'.length + 1) + 1 =
          ln + bls.length + 1 + bs'.length + 1 from by omega]
    · rw [blockRaws, hlines]
      simp [appendMafLine, emptyBlockAt, hraw, hraws]
    · rw [hlines]; simp [appendMafLine, emptyBlockAt]
    · rw [hln2]; simp [appendMafLine, emptyBlockAt]

/-- A body read with no lookahead on `blanks ++ block` hitting end of
stream: the final block need not be blank-terminated. -/
theorem readBlockBody_eof (bls bs : List String) (ln : Nat)
    (hbl : ∀ l ∈ bls, maf_isBlankLine l = true)
    (hbs : bs ≠ []) (hg : ∀ l ∈ bs, goodBodyLine l) :
    ∃ blk, maf_readBlockBody
        { lineNumber := ln, input := bls ++ bs, lastLine := none } =
      .ok (blk,
        { lineNumber := ln + bls.length + bs.length
          input := []
          lastLine := none }) ∧
      blockRaws blk = bs ∧ blk.lines ≠ [] ∧ blk.lineNumber = ln := by
  cases bs with
  | nil => exact absurd rfl hbs
  | cons b bs' =>
    obtain ⟨hb, hp⟩ := hg b (by simp)
    obtain ⟨ml, hml, hraw, _⟩ := hp (ln + bls.length + 1)
    have hskip := maf_bodyLoop_skip bls (emptyBlockAt ln) ln (b :: bs') hbl rfl
    have hstep : maf_bodyLoop (emptyBlockAt ln) (ln + bls.length) (b :: bs') =
        maf_bodyLoop (appendMafLine (emptyBlockAt ln) ml)
          (ln + bls.length + 1) bs' := by
      rw [show (b :: bs') = (b :: []) ++ bs' from rfl, List.cons_append,
        List.nil_append]
      simp only [maf_bodyLoop]
      rw [if_neg (by simp [hb]), hml]
    obtain ⟨blk2, ext, heq, hlines, hraws, hln2⟩ :=
      maf_bodyLoop_accum bs' (appendMafLine (emptyBlockAt ln) ml)
        (ln + bls.length + 1) []
        (fun l hl => hg l (by simp [hl]))
        (by simp [appendMafLine, emptyBlockAt])
    rw [List.append_nil] at heq
    refine ⟨blk2, ?_, ?_, ?_, ?_⟩
    · rw [readBlockBody_none_eq, hskip, hstep, heq]
      rw [List.length_cons,
        show ln + bls.length + (bs'.length + 1) =
          ln + bls.length + 1 + bs'.length from by omega]
      rfl
    · rw [blockRaws, hlines]
      simp [appendMafLine, emptyBlockAt, hraw, hraws]
    · rw [hlines]; simp [appendMafLine, emptyBlockAt]
    · rw [hln2]; simp [appendMafLine, emptyBlockAt]

/-- A body read with a buffered lookahead line `a`: `a` is parsed first,
at the current counter value, as the block's first record, before any
stream line is read. -/
theorem readBlockBody_la_sep (a : String) (bs' tr : List String) (t : String)
    (ln : Nat) (hpa : parsesWithRaw a)
    (hg : ∀ l ∈ bs', goodBodyLine l) (ht : maf_isBlankLine t = true) :
    ∃ blk ml0, maf_readBlockBody
        { lineNumber := ln, input := bs' ++ t :: tr, lastLine := some a } =
      .ok (blk,
        { lineNumber := ln + bs'.length + 1
          input := tr
          lastLine := none }) ∧
      blockRaws blk = a :: bs' ∧ blk.lines.head? = some ml0 ∧
      ml0.line = a ∧ ml0.lineNumber = ln ∧ blk.lineNumber = ln := by
  obtain ⟨ml, hml, hraw, hlnum⟩ := hpa ln
  obtain ⟨blk2, ext, heq, hlines, hraws, hln2⟩ :=
    maf_bodyLoop_accum bs' (appendMafLine (emptyBlockAt ln) ml) ln (t :: tr)
      hg (by simp [appendMafLine, emptyBlockAt])
  have hend := maf_bodyLoop_end_blank blk2 (ln + bs'.length) t tr
    (by rw [hlines]; simp [appendMafLine, emptyBlockAt]) ht
  refine ⟨blk2, ml, ?_, ?_, ?_, hraw, hlnum, ?_⟩
  · rw [readBlockBody_some_ok_eq _ _ _ _ hml, heq, hend]
  · rw [blockRaws, hlines]
    simp [appendMafLine, emptyBlockAt, hraw, hraws]
  · rw [hlines]; simp [appendMafLine, emptyBlockAt]
  · rw [hln2]; simp [appendMafLine, emptyBlockAt]

/-- A body read with a buffered lookahead and end of stream after the
remaining block lines. -/
theorem readBlockBody_la_eof (a : String) (bs' : List String) (ln : Nat)
    (hpa : parsesWithRaw a) (hg : ∀ l ∈ bs', goodBodyLine l) :
    ∃ blk ml0, maf_readBlockBody
        { lineNumber := ln, input := bs', lastLine := some a } =
      .ok (blk,
        { lineNumber := ln + bs'.length
          input := []
          lastLine := none }) ∧
      blockRaws blk = a :: bs' ∧ blk.lines.head? = some ml0 ∧
      ml0.line = a ∧ ml0.lineNumber = ln ∧ blk.lineNumber = ln := by
  obtain ⟨ml, hml, hraw, hlnum⟩ := hpa ln
  obtain ⟨blk2, ext, heq, hlines, hraws, hln2⟩ :=
    maf_bodyLoop_accum bs' (appendMafLine (emptyBlockAt ln) ml) ln []
      hg (by simp [appendMafLine, emptyBlockAt])
  rw [List.append_nil] at heq
  refine ⟨blk2, ml, ?_, ?_, ?_, hraw, hlnum, ?_⟩
  · rw [readBlockBody_some_ok_eq _ _ _ _ hml, heq]
    rfl
  · rw [blockRaws, hlines]
    simp [appendMafLine, emptyBlockAt, hraw, hraws]
  · rw [hlines]; simp [appendMafLine, emptyBlockAt]
  · rw [hln2]; simp [appendMafLine, emptyBlockAt]

theorem maf_readBlock_body_eq (mfa : ReadState) (hln : mfa.lineNumber ≠ 0) :
    maf_readBlock mfa =
      match maf_readBlockBody mfa with
      | .error e => .error e
      | .ok (blk, st) =>
        .ok (if blk.lines.isEmpty then none else some (blk, st)) := by
  unfold maf_readBlock
  rw [if_neg hln]

theorem maf_readBlock_header_eq (mfa : ReadState) (hln : mfa.lineNumber = 0) :
    maf_readBlock mfa =
      match maf_readBlockHeader mfa with
      | .error e => .error e
      | .ok (blk, st) =>
        .ok (if blk.lines.isEmpty then none else some (blk, st)) := by
  unfold maf_readBlock
  rw [if_pos hln]

theorem parsesWithRaw_shg : parsesWithRaw (r"s hg 0 2 + 10 AC") :=
  fun ln => ⟨_, rfl, rfl, rfl⟩

theorem goodBodyLine_shg : goodBodyLine (r"s hg 0 2 + 10 AC") :=
  ⟨by decide, parsesWithRaw_shg⟩

theorem goodBodyLine_ascore : goodBodyLine (r"a score=0") :=
  ⟨by decide, parsesWithRaw_of_not_s _ (by decide)⟩

theorem goodPair_C1 :
    ∀ l ∈ [r"a score=0", r"s hg 0 2 + 10 AC"], goodBodyLine l := by
  intro l hl
  simp only [List.mem_cons, List.not_mem_nil, or_false] at hl
  rcases hl with rfl | rfl
  · exact goodBodyLine_ascore
  · exact goodBodyLine_shg

/-- C2: a well-formed header terminated directly by an `a` line (no blank
separator) buffers that line in the File Session's lookahead without
appending it to the header block, and the next body read parses the
buffered line, at its original line number, as the first Line Record of
the first body block before reading any further stream lines. -/
theorem headerLookahead (hs : List String) (aLine : String)
    (bs' tr : List String) (t : String)
    (hwf : validHeaderLines hs) (ha : firstChar aLine = 'a')
    (hg : ∀ l ∈ bs', goodBodyLine l) (ht : maf_isBlankLine t = true) :
    ∃ hdr st blk st2 ml0,
      maf_readBlockHeader
          { lineNumber := 0
            input := hs ++ aLine :: (bs' ++ t :: tr)
            lastLine := none } =
        .ok (hdr, st) ∧
      blockRaws hdr = hs ∧
      st.lastLine = some aLine ∧ st.input = bs' ++ t :: tr ∧
      maf_readBlockBody st = .ok (blk, st2) ∧
      blockRaws blk = aLine :: bs' ∧
      blk.lines.head? = some ml0 ∧ ml0.line = aLine ∧
      ml0.lineNumber = hs.length + 1 := by
  have hr0 : ¬ HCond aLine := fun h => h.1 ha
  have hh := maf_readBlockHeader_wf hs aLine (bs' ++ t :: tr) hwf hr0
  rw [if_pos ha] at hh
  have hpa : parsesWithRaw aLine :=
    parsesWithRaw_of_not_s aLine (by rw [ha]; decide)
  obtain ⟨blk, ml0, hb1, hb2, hb3, hb4, hb5, _⟩ :=
    readBlockBody_la_sep aLine bs' tr t (hs.length + 1) hpa hg ht
  exact ⟨_, _, blk, _, ml0, hh, by rw [blockRaws, hLines_raws], rfl, rfl,
    hb1, hb2, hb3, hb4, hb5⟩

/-- Witness for C2 on the concrete file `inC7` (track header line,
then an `a` line with no blank separator). -/
theorem headerLookahead_witness :
    ∃ hdr st blk st2 ml0,
      maf_readBlockHeader
          { lineNumber := 0, input := inC7, lastLine := none } =
        .ok (hdr, st) ∧
      blockRaws hdr = [r"track name=x"] ∧
      st.lastLine = some (r"a score=0") ∧
      st.input = [r"s hg 0 2 + 10 AC", r""] ∧
      maf_readBlockBody st = .ok (blk, st2) ∧
      blockRaws blk = [r"a score=0", r"s hg 0 2 + 10 AC"] ∧
      blk.lines.head? = some ml0 ∧ ml0.line = r"a score=0" ∧
      ml0.lineNumber = 2 := by
  have h := headerLookahead ([r"track name=x"]) (r"a score=0")
    ([r"s hg 0 2 + 10 AC"]) [] (r"")
    ⟨by decide, Or.inr (by decide), by decide, by decide⟩ (by decide)
    (by
      intro l hl
      simp only [List.mem_cons, List.not_mem_nil, or_false] at hl
      subst hl
      exact goodBodyLine_shg)
    (by decide)
  exact h

/-- C3: during one body read, a blank line terminates a non-empty block;
while the block is still empty consecutive blank lines are skipped; hence
a run of k ≥ 1 blank lines before a block yields exactly one boundary
with that block, never an empty block. -/
theorem blankLineCollapsing (bls bs tr : List String) (t : String) (ln : Nat)
    (hk : bls ≠ []) (hbl : ∀ l ∈ bls, maf_isBlankLine l = true)
    (hbs : bs ≠ []) (hg : ∀ l ∈ bs, goodBodyLine l)
    (ht : maf_isBlankLine t = true) :
    (∀ blk : MafBlock, blk.lines ≠ [] →
      maf_bodyLoop blk ln (t :: tr) = .ok (blk, ln + 1, tr)) ∧
    (∀ blk : MafBlock, blk.lines = [] →
      maf_bodyLoop blk ln (bls ++ tr) =
        maf_bodyLoop blk (ln + bls.length) tr) ∧
    (∃ blk, maf_readBlockBody
        { lineNumber := ln, input := bls ++ bs ++ t :: tr, lastLine := none } =
      .ok (blk,
        { lineNumber := ln + bls.length + bs.length + 1
          input := tr
          lastLine := none }) ∧
      blockRaws blk = bs ∧ blk.lines ≠ []) := by
  refine ⟨fun blk hne => maf_bodyLoop_end_blank blk ln t tr hne ht,
    fun blk he => maf_bodyLoop_skip bls blk ln tr hbl he, ?_⟩
  obtain ⟨blk, h1, h2, h3, _⟩ := readBlockBody_sep bls bs tr t ln hbl hbs hg ht
  exact ⟨blk, h1, h2, h3⟩

/-- Witness for C3: three consecutive blank lines before a two-line block,
read at counter 4, yield that block alone, never an empty block. -/
theorem blankLineCollapsing_witness :
    ∃ blk, maf_readBlockBody
        { lineNumber := 4
          input := [r"", r"", r"", r"a score=0", r"s hg 0 2 + 10 AC", r""]
          lastLine := none } =
      .ok (blk, { lineNumber := 10, input := [], lastLine := none }) ∧
      blockRaws blk = [r"a score=0", r"s hg 0 2 + 10 AC"] ∧
      blk.lines ≠ [] := by
  have h := (blankLineCollapsing ([r"", r"", r""])
    ([r"a score=0", r"s hg 0 2 + 10 AC"]) [] (r"") 4
    (by decide) (by decide) (by decide) goodPair_C1 (by decide)).2.2
  exact h

/-- C4: end of stream with an empty accumulated block makes the block read
signal no-more-blocks (`none`, not an error); end of stream with a
non-empty accumulated block returns that block, so the final block need
not be blank-terminated. -/
theorem bodyEndOfStream (bls bs : List String) (ln : Nat)
    (hbl : ∀ l ∈ bls, maf_isBlankLine l = true)
    (hg : ∀ l ∈ bs, goodBodyLine l) (hln : ln ≠ 0) :
    (bs = [] →
      maf_readBlock { lineNumber := ln, input := bls, lastLine := none } =
        .ok none) ∧
    (bs ≠ [] → ∃ blk st,
      maf_readBlock { lineNumber := ln, input := bls ++ bs, lastLine := none } =
        .ok (some (blk, st)) ∧
      blockRaws blk = bs ∧ st.input = [] ∧ st.lastLine = none) := by
  constructor
  · intro hbs
    rw [maf_readBlock_body_eq _ hln]
    have h1 : maf_bodyLoop (emptyBlockAt ln) ln bls =
        .ok (emptyBlockAt ln, ln + bls.length, []) := by
      have h2 := maf_bodyLoop_skip bls (emptyBlockAt ln) ln [] hbl rfl
      rw [List.append_nil] at h2
      rw [h2]
      rfl
    rw [readBlockBody_none_eq, h1]
    rfl
  · intro hbs
    obtain ⟨blk, h1, h2, h3, _⟩ := readBlockBody_eof bls bs ln hbl hbs hg
    refine ⟨blk,
      { lineNumber := ln + bls.length + bs.length
        input := []
        lastLine := none }, ?_, h2, rfl, rfl⟩
    rw [maf_readBlock_body_eq _ hln]
    simp only [h1]
    rw [if_neg (by simp [h3])]

/-- Witness for C4: trailing blanks alone yield `none`; a final
unterminated block is returned whole. -/
theorem bodyEndOfStream_witness :
    maf_readBlock { lineNumber := 9, input := [r"", r""], lastLine := none } =
      .ok none ∧
    ∃ blk st,
      maf_readBlock
          { lineNumber := 9
            input := [r"", r"", r"a score=0", r"s hg 0 2 + 10 AC"]
            lastLine := none } =
        .ok (some (blk, st)) ∧
      blockRaws blk = [r"a score=0", r"s hg 0 2 + 10 AC"] ∧
      st.input = [] ∧ st.lastLine = none := by
  constructor
  · exact (bodyEndOfStream ([r"", r""]) [] 9 (by decide) (by simp)
      (by decide)).1 rfl
  · exact (bodyEndOfStream ([r"", r""])
      ([r"a score=0", r"s hg 0 2 + 10 AC"]) 9 (by decide) goodPair_C1
      (by decide)).2 (by decide)

/-- C7 counterexample: with a `track` first line followed directly by an
`a` line, the header read does not accept that second line as header
content: the header block holds only the track line, and the `a` line is
buffered into the lookahead instead. -/
theorem trackSecondLine_cex :
    (maf_readBlockHeader
        { lineNumber := 0, input := inC7, lastLine := none }).toOption.map
        (fun p => (blockRaws p.1, p.2.lastLine)) =
      some ([r"track name=x"], some (r"a score=0")) := rfl

/-- C7 amended: after a `track` first line, the next line is read and
accepted as header content regardless of its prefix, unless it starts
with `a` (buffered into the lookahead) or is blank (discarded). -/
theorem trackSecondLine_amended (t0 l : String) (rest : List String)
    (ht : startsWithTrack t0 = true) (hl1 : maf_isBlankLine l = false)
    (hl2 : firstChar l ≠ 'a') :
    maf_readBlockHeader
        { lineNumber := 0, input := t0 :: l :: rest, lastLine := none } =
      match rest with
      | [] => .error .prematureEnd
      | r0 :: rtail =>
        maf_headerLoop
          { lines := [mkHLine t0 1, mkHLine l 2]
            lineNumber := 3
            numberOfLines := 2
            numberOfSequences := 0 } r0 3 rtail := by
  by_cases hm : startsWithMaf l = true
  · cases rest with
    | nil => unfold maf_readBlockHeader; simp [ht, hm]
    | cons r0 rtail =>
      rw [readBlockHeader_step_track_maf t0 l r0 rtail ht hm]
  · have hmf : startsWithMaf l = false := by simpa using hm
    cases rest with
    | nil =>
      rw [readBlockHeader_step_track t0 l [] ht hmf]
      simp only [maf_headerLoop]
      rw [if_pos ⟨hl2, hl1⟩]
    | cons r0 rtail =>
      rw [readBlockHeader_step_track t0 l (r0 :: rtail) ht hmf]
      simp only [maf_headerLoop]
      rw [if_pos ⟨hl2, hl1⟩]
      rfl

/-- Witness for the amended C7: a second line with an arbitrary odd prefix
is accepted as header content after a track line. -/
theorem trackSecondLine_amended_witness :
    startsWithTrack (r"track x") = true ∧
    maf_isBlankLine (r"% odd prefix") = false ∧
    firstChar (r"% odd prefix") ≠ 'a' ∧
    maf_readBlockHeader
        { lineNumber := 0
          input := [r"track x", r"% odd prefix", r""]
          lastLine := none } =
      maf_headerLoop
        { lines := [mkHLine (r"track x") 1, mkHLine (r"% odd prefix") 2]
          lineNumber := 3
          numberOfLines := 2
          numberOfSequences := 0 } (r"") 3 [] := by
  refine ⟨by decide, by decide, by decide, ?_⟩
  exact trackSecondLine_amended (r"track x") (r"% odd prefix") ([r""])
    (by decide) (by decide) (by decide)

theorem segJoin_nil : segJoin [] = [] := rfl

theorem segJoin_cons (q : List String × List String)
    (qs : List (List String × List String)) :
    segJoin (q :: qs) = (q.1 ++ q.2) ++ segJoin qs := by
  simp [segJoin]

theorem segJoin_length_ge (qs : List (List String × List String))
    (h : ∀ q ∈ qs, q.1 ≠ []) : qs.length ≤ (segJoin qs).length := by
  induction qs with
  | nil => simp [segJoin]
  | cons q qs ih =>
    have h1 : 0 < q.1.length := List.length_pos.mpr (h q (by simp))
    have h2 := ih (fun p hp => h p (by simp [hp]))
    rw [segJoin_cons]
    simp only [List.length_cons, List.length_append]
    omega

theorem sepsNonEmptyBetween_tail (q : List String × List String)
    (qs : List (List String × List String))
    (h : sepsNonEmptyBetween (q :: qs)) : sepsNonEmptyBetween qs := by
  cases qs with
  | nil => trivial
  | cons r rs => exact h.2

theorem readBlock_of_body (mfa : ReadState) (blk : MafBlock) (st : ReadState)
    (hln : mfa.lineNumber ≠ 0)
    (h : maf_readBlockBody mfa = .ok (blk, st)) (hne : blk.lines ≠ []) :
    maf_readBlock mfa = .ok (some (blk, st)) := by
  rw [maf_readBlock_body_eq _ hln]
  simp only [h]
  rw [if_neg (by simp [hne])]

theorem readAllFuel_step (f : Nat) (mfa : ReadState) (blk : MafBlock)
    (st : ReadState) (h : maf_readBlock mfa = .ok (some (blk, st))) :
    maf_readAllFuel (f + 1) mfa =
      match maf_readAllFuel f st with
      | .error e => .error e
      | .ok blks => .ok (blk :: blks) := by
  simp only [maf_readAllFuel]
  rw [h]

/-- Any fuel drives the reader through a run of trailing blanks to the
clean no-more-blocks termination. -/
theorem readAllFuel_blanks (f ln : Nat) (pre : List String)
    (hpre : ∀ l ∈ pre, maf_isBlankLine l = true) (hln : ln ≠ 0)
    (hf : 1 ≤ f) :
    maf_readAllFuel f { lineNumber := ln, input := pre, lastLine := none } =
      .ok [] := by
  obtain ⟨g, rfl⟩ : ∃ g, f = g + 1 := ⟨f - 1, by omega⟩
  simp only [maf_readAllFuel]
  have hrb : maf_readBlock { lineNumber := ln, input := pre, lastLine := none } =
      .ok none := by
    rw [maf_readBlock_body_eq _ hln]
    have h1 : maf_bodyLoop (emptyBlockAt ln) ln pre =
        .ok (emptyBlockAt ln, ln + pre.length, []) := by
      have h2 := maf_bodyLoop_skip pre (emptyBlockAt ln) ln [] hpre rfl
      rw [List.append_nil] at h2
      rw [h2]
      rfl
    rw [readBlockBody_none_eq, h1]
    rfl
  rw [hrb]

/-- With the preceding blanks `pre` still pending, reading all remaining
blocks of a well-formed body section yields one block per segment, whose
raw lines are the segment's block lines. -/
theorem readAllFuel_segs (qs : List (List String × List String)) :
    ∀ (pre : List String) (ln fuel : Nat),
    (∀ q ∈ qs, goodSeg q) → sepsNonEmptyBetween qs →
    (∀ l ∈ pre, maf_isBlankLine l = true) → ln ≠ 0 →
    qs.length + 1 ≤ fuel →
    ∃ bs, maf_readAllFuel fuel
        { lineNumber := ln, input := pre ++ segJoin qs, lastLine := none } =
      .ok bs ∧ bs.map blockRaws = qs.map (fun q => q.1) := by
  induction qs with
  | nil =>
    intro pre ln fuel _ _ hpre hln hf
    refine ⟨[], ?_, rfl⟩
    rw [show pre ++ segJoin [] = pre from by simp [segJoin]]
    exact readAllFuel_blanks fuel ln pre hpre hln (by omega)
  | cons q qs ih =>
    intro pre ln fuel hgood hsep hpre hln hf
    obtain ⟨g, rfl⟩ : ∃ g, fuel = g + 1 := ⟨fuel - 1, by omega⟩
    obtain ⟨hq1, hq2, hq3⟩ := hgood q (by simp)
    cases hq2' : q.2 with
    | nil =>
      have hqs : qs = [] := by
        cases qs with
        | nil => rfl
        | cons r rs => exact absurd hq2' hsep.1
      subst hqs
      have hinput : pre ++ segJoin [q] = pre ++ q.1 := by
        rw [segJoin_cons, segJoin_nil, hq2']
        simp
      obtain ⟨blk, h1, h2, h3, _⟩ := readBlockBody_eof pre q.1 ln hpre hq1 hq2
      refine ⟨[blk], ?_, by simp [h2]⟩
      rw [hinput, readAllFuel_step g _ blk _ (readBlock_of_body _ _ _ hln h1 h3),
        readAllFuel_blanks g _ [] (by simp) (by omega) (by
          simp only [List.length_cons] at hf
          omega)]
    | cons t tr =>
      have hinput : pre ++ segJoin (q :: qs) =
          pre ++ q.1 ++ t :: (tr ++ segJoin qs) := by
        rw [segJoin_cons, hq2']
        simp [List.append_assoc]
      have hbt : maf_isBlankLine t = true := hq3 t (by rw [hq2']; simp)
      obtain ⟨blk, h1, h2, h3, _⟩ :=
        readBlockBody_sep pre q.1 (tr ++ segJoin qs) t ln hpre hq1 hq2 hbt
      obtain ⟨bs', hb1, hb2⟩ := ih tr (ln + pre.length + q.1.length + 1) g
        (fun p hp => hgood p (by simp [hp]))
        (sepsNonEmptyBetween_tail q qs hsep)
        (fun l hl => hq3 l (by rw [hq2']; simp [hl]))
        (by omega)
        (by simp only [List.length_cons] at hf; omega)
      refine ⟨blk :: bs', ?_, by simp [h2, hb2]⟩
      rw [hinput, readAllFuel_step g _ blk _ (readBlock_of_body _ _ _ hln h1 h3),
        hb1]

theorem maf_writeAll_raws (mbs : List MafBlock) :
    maf_writeAll mbs =
      ((mbs.map blockRaws).map (fun b => b ++ [String.mk []])).flatten
        ++ [String.mk []] := by
  simp only [List.map_map]
  rfl

/-- C1 counterexample: on the canonical well-formed file `inC1` (which
itself has exactly one blank between blocks and one trailing blank), the
round trip reproduces the raw lines but appends one extra trailing blank
line: the output ends with TWO blank lines (the last block's separator
plus `maf_writeAll`'s final blank), not one as the claim states. -/
theorem roundTrip_cex :
    (maf_readAll inC1).map maf_writeAll = .ok (inC1 ++ [String.mk []]) ∧
    (maf_readAll inC1).map specRoundTripOutput = .ok inC1 ∧
    inC1 ++ [String.mk []] ≠ inC1 :=
  ⟨rfl, rfl, by decide⟩

/-- C1 amended: reading a well-formed file (valid header; blocks of
non-blank parseable lines separated by runs of blank lines, the header
terminated by a blank or directly by the first `a` line; optional
trailing blanks) and immediately writing the block list emits each
block's raw lines verbatim and in order, with blank separators collapsed
to exactly one blank line after every block — hence exactly one between
consecutive blocks — plus one additional trailing blank line, so the
output ends with two blank lines. -/
theorem roundTrip_amended (hs fsep : List String)
    (qs : List (List String × List String))
    (hh : validHeaderLines hs)
    (hfs : ∀ l ∈ fsep, maf_isBlankLine l = true)
    (hqs : ∀ q ∈ qs, goodSeg q)
    (hsep : sepsNonEmptyBetween qs)
    (hterm : firstTermOk fsep qs) :
    ∃ blocks,
      maf_readAll (hs ++ fsep ++ segJoin qs) = .ok blocks ∧
      blocks.map blockRaws = hs :: qs.map (fun q => q.1) ∧
      maf_writeAll blocks =
        ((hs :: qs.map (fun q => q.1)).map
          (fun b => b ++ [String.mk []])).flatten ++ [String.mk []] := by
  suffices h : ∃ blocks,
      maf_readAll (hs ++ fsep ++ segJoin qs) = .ok blocks ∧
      blocks.map blockRaws = hs :: qs.map (fun q => q.1) by
    obtain ⟨blocks, h1, h2⟩ := h
    exact ⟨blocks, h1, h2, by rw [maf_writeAll_raws, h2]⟩
  have hhs_ne : hs ≠ [] := hh.1
  have hhs_pos : 0 < hs.length := List.length_pos.mpr hhs_ne
  unfold maf_readAll
  cases fsep with
  | cons t ts =>
    have ht : maf_isBlankLine t = true := hfs t (by simp)
    have hta : firstChar t ≠ 'a' := firstChar_ne_a_of_blank t ht
    have hr0 : ¬ HCond t := not_HCond_of_blank t ht
    have hinput : hs ++ (t :: ts) ++ segJoin qs =
        hs ++ t :: (ts ++ segJoin qs) := by simp
    have hhdr := maf_readBlockHeader_wf hs t (ts ++ segJoin qs) hh hr0
    rw [if_neg hta] at hhdr
    have hrbh : maf_readBlock
        { lineNumber := 0, input := hs ++ (t :: ts) ++ segJoin qs,
          lastLine := none } =
        .ok (some
          ({ lines := hLines hs 1
             lineNumber := hs.length + 1
             numberOfLines := hs.length
             numberOfSequences := 0 },
           { lineNumber := hs.length + 1
             input := ts ++ segJoin qs
             lastLine := none })) := by
      rw [maf_readBlock_header_eq _ rfl, hinput]
      simp only [hhdr]
      rw [if_neg (by simp [hLines_ne_nil hs 1 hhs_ne])]
    have hfb : qs.length ≤ (segJoin qs).length :=
      segJoin_length_ge qs (fun q hq => (hqs q hq).1)
    obtain ⟨bs', hb1, hb2⟩ := readAllFuel_segs qs ts (hs.length + 1)
      ((hs ++ (t :: ts) ++ segJoin qs).length + 1)
      hqs hsep (fun l hl => hfs l (by simp [hl])) (by omega)
      (by simp only [List.length_append, List.length_cons]; omega)
    refine ⟨{ lines := hLines hs 1
              lineNumber := hs.length + 1
              numberOfLines := hs.length
              numberOfSequences := 0 } :: bs', ?_, ?_⟩
    · rw [show (hs ++ (t :: ts) ++ segJoin qs).length + 2 =
          (hs ++ (t :: ts) ++ segJoin qs).length + 1 + 1 from rfl,
        readAllFuel_step _ _ _ _ hrbh, hb1]
    · simp only [List.map_cons]
      rw [hb2]
      simp [blockRaws, hLines_raws]
  | nil =>
    cases qs with
    | nil => exact hterm.elim
    | cons q qs' =>
      obtain ⟨hq1, hq2, hq3⟩ := hqs q (by simp)
      cases hq1' : q.1 with
      | nil => exact absurd hq1' hq1
      | cons a as =>
        have ha : firstChar a = 'a' := by
          have h := hterm
          simp only [firstTermOk, hq1', List.headD_cons] at h
          exact h
        have hr0 : ¬ HCond a := fun h => h.1 ha
        have hhdr := maf_readBlockHeader_wf hs a (as ++ q.2 ++ segJoin qs')
          hh hr0
        rw [if_pos ha] at hhdr
        have hinput : hs ++ [] ++ segJoin (q :: qs') =
            hs ++ a :: (as ++ q.2 ++ segJoin qs') := by
          rw [List.append_nil, segJoin_cons, hq1']
          simp [List.append_assoc]
        have hrbh : maf_readBlock
            { lineNumber := 0, input := hs ++ [] ++ segJoin (q :: qs'),
              lastLine := none } =
            .ok (some
              ({ lines := hLines hs 1
                 lineNumber := hs.length + 1
                 numberOfLines := hs.length
                 numberOfSequences := 0 },
               { lineNumber := hs.length + 1
                 input := as ++ q.2 ++ segJoin qs'
                 lastLine := some a })) := by
          rw [maf_readBlock_header_eq _ rfl, hinput]
          simp only [hhdr]
          rw [if_neg (by simp [hLines_ne_nil hs 1 hhs_ne])]
        have hpa : parsesWithRaw a :=
          parsesWithRaw_of_not_s a (by rw [ha]; decide)
        have hgas : ∀ l ∈ as, goodBodyLine l :=
          fun l hl => hq2 l (by rw [hq1']; simp [hl])
        cases hq2' : q.2 with
        | nil =>
          have hqs' : qs' = [] := by
            cases qs' with
            | nil => rfl
            | cons r rs => exact absurd hq2' hsep.1
          subst hqs'
          have hin2 : as ++ q.2 ++ segJoin ([] :
              List (List String × List String)) = as := by
            rw [hq2', segJoin_nil]
            simp
          obtain ⟨blk, ml0, hb1, hb2, hb3, _, _, _⟩ :=
            readBlockBody_la_eof a as (hs.length + 1) hpa hgas
          have hne : blk.lines ≠ [] := by
            intro hcon
            rw [hcon] at hb3
            simp at hb3
          have hrb2 := readBlock_of_body _ _ _ (by simp) hb1 hne
          refine ⟨{ lines := hLines hs 1
                    lineNumber := hs.length + 1
                    numberOfLines := hs.length
                    numberOfSequences := 0 } :: blk :: [], ?_, ?_⟩
          · have hfuel1 : 1 ≤ (hs ++ [] ++ segJoin [q]).length := by
              simp only [List.length_append]
              omega
            show maf_readAllFuel
              ((hs ++ [] ++ segJoin [q]).length + 1 + 1) _ = _
            rw [readAllFuel_step _ _ _ _ hrbh, hin2,
              readAllFuel_step _ _ _ _ hrb2,
              readAllFuel_blanks _ _ [] (by simp) (by omega) (by omega)]
          · simp only [List.map_cons, List.map_nil]
            rw [hb2, hq1']
            simp [blockRaws, hLines_raws]
        | cons t2 tr2 =>
          have hbt2 : maf_isBlankLine t2 = true :=
            hq3 t2 (by rw [hq2']; simp)
          have hin2 : as ++ q.2 ++ segJoin qs' =
              as ++ t2 :: (tr2 ++ segJoin qs') := by
            rw [hq2']
            simp [List.append_assoc]
          obtain ⟨blk, ml0, hb1, hb2, hb3, _, _, _⟩ :=
            readBlockBody_la_sep a as (tr2 ++ segJoin qs') t2
              (hs.length + 1) hpa hgas hbt2
          have hne : blk.lines ≠ [] := by
            intro hcon
            rw [hcon] at hb3
            simp at hb3
          have hrb2 := readBlock_of_body _ _ _ (by simp) hb1 hne
          have hfb : qs'.length ≤ (segJoin qs').length :=
            segJoin_length_ge qs' (fun p hp => (hqs p (by simp [hp])).1)
          have hlenq : (hs ++ [] ++ segJoin (q :: qs')).length =
              hs.length + (1 + as.length) + (1 + tr2.length)
                + (segJoin qs').length := by
            simp only [List.length_append, List.length_nil, segJoin_cons,
              hq1', hq2', List.length_cons]
            omega
          obtain ⟨bs', hc1, hc2⟩ := readAllFuel_segs qs' tr2
            (hs.length + 1 + as.length + 1)
            ((hs ++ [] ++ segJoin (q :: qs')).length)
            (fun p hp => hqs p (by simp [hp]))
            (sepsNonEmptyBetween_tail q qs' hsep)
            (fun l hl => hq3 l (by rw [hq2']; simp [hl]))
            (by omega)
            (by omega)
          refine ⟨{ lines := hLines hs 1
                    lineNumber := hs.length + 1
                    numberOfLines := hs.length
                    numberOfSequences := 0 } :: blk :: bs', ?_, ?_⟩
          · show maf_readAllFuel
              ((hs ++ [] ++ segJoin (q :: qs')).length + 1 + 1) _ = _
            rw [readAllFuel_step _ _ _ _ hrbh, hin2,
              readAllFuel_step _ _ _ _ hrb2, hc1]
          · simp only [List.map_cons]
            rw [hb2, hc2, hq1']
            simp [blockRaws, hLines_raws]

/-- Witness for the amended C1 on the concrete file `inC1`: the output is
the input plus one extra trailing blank line. -/
theorem roundTrip_amended_witness :
    ∃ blocks,
      maf_readAll inC1 = .ok blocks ∧
      blocks.map blockRaws =
        [[r"##maf version=1"], [r"a score=0", r"s hg 0 2 + 10 AC"]] ∧
      maf_writeAll blocks =
        [r"##maf version=1", r"", r"a score=0", r"s hg 0 2 + 10 AC",
          r"", r""] := by
  have h := roundTrip_amended ([r"##maf version=1"]) ([r""])
    ([([r"a score=0", r"s hg 0 2 + 10 AC"], [r""])])
    ⟨by decide, Or.inl (by decide), by decide, by decide⟩
    (by decide)
    (by
      intro p hp
      simp only [List.mem_cons, List.not_mem_nil, or_false] at hp
      subst hp
      exact ⟨by decide, goodPair_C1, by decide⟩)
    trivial
    trivial
  exact h

/-- C6: for a sequence line record (`uint32_t` fields, with the span inside
the source sequence), the positive-coordinate start is the stored start on
`+` strand and `sourceLength - start - 1` on `-` strand, and the
positive-coordinate left edge is the stored start on `+` strand and
`sourceLength - (start + length)` on `-` strand. -/
theorem positiveCoord_conversion (ml : MafLine)
    (h1 : ml.start < 4294967296) (h2 : ml.sourceLength < 4294967296)
    (h3 : ml.start < ml.sourceLength)
    (h4 : ml.start + ml.length ≤ ml.sourceLength) :
    (ml.strand = '+' →
      maf_mafLine_getPositiveCoord ml = ml.start ∧
      maf_mafLine_getPositiveLeftCoord ml = ml.start) ∧
    (ml.strand = '-' →
      maf_mafLine_getPositiveCoord ml = ml.sourceLength - ml.start - 1 ∧
      maf_mafLine_getPositiveLeftCoord ml =
        ml.sourceLength - (ml.start + ml.length)) := by
  constructor
  · intro h
    simp [maf_mafLine_getPositiveCoord, maf_mafLine_getPositiveLeftCoord, h]
  · intro h
    have hne : ¬ ml.strand = '+' := by rw [h]; decide
    simp only [maf_mafLine_getPositiveCoord, maf_mafLine_getPositiveLeftCoord,
      if_neg hne, u32]
    omega

/-- Witness for C6 at the specification's example `start = 10`,
`length = 5`, `sourceLength = 100` on the `-` strand: `89` and `85`. -/
theorem positiveCoord_conversion_witness :
    mlC6.start < 4294967296 ∧ mlC6.sourceLength < 4294967296 ∧
    mlC6.start < mlC6.sourceLength ∧
    mlC6.start + mlC6.length ≤ mlC6.sourceLength ∧
    maf_mafLine_getPositiveCoord mlC6 = 89 ∧
    maf_mafLine_getPositiveLeftCoord mlC6 = 85 := by
  refine ⟨by decide, by decide, by decide, by decide, ?_, ?_⟩
  · have h := (positiveCoord_conversion mlC6 (by decide) (by decide)
      (by decide) (by decide)).2 rfl
    rw [h.1]; decide
  · have h := (positiveCoord_conversion mlC6 (by decide) (by decide)
      (by decide) (by decide)).2 rfl
    rw [h.2]; decide

/-- C10: on a block whose `numberOfSequences` counter matches its live
`s`-line count, the strand-array and sequence-line-array builders return
NULL exactly when the counter is zero, and otherwise the strand array
holds the `s` lines' strand characters in order, NUL-terminated. -/
theorem strandArray_zeroSequences (mb : MafBlock)
    (h : mb.numberOfSequences =
      (mb.lines.filter (fun l => l.type = 's')).length) :
    (maf_mafBlock_getStrandArray mb = none ↔ mb.numberOfSequences = 0) ∧
    (maf_mafBlock_getMafLineArray_seqOnly mb = none ↔
      mb.numberOfSequences = 0) ∧
    (mb.numberOfSequences ≠ 0 →
      ∃ a, maf_mafBlock_getStrandArray mb = some a ∧
        a.length = mb.numberOfSequences + 1 ∧
        a.getLast? = some (Char.ofNat 0) ∧
        ∀ i, i < mb.numberOfSequences →
          a.get? i =
            ((mb.lines.filter (fun l => l.type = 's')).get? i).map
              (fun l => l.strand)) := by
  by_cases h0 : mb.numberOfSequences = 0
  · simp [maf_mafBlock_getStrandArray, maf_mafBlock_getMafLineArray_seqOnly, h0]
  · refine ⟨?_, ?_, fun _ => ?_⟩
    · simp [maf_mafBlock_getStrandArray, h0]
    · simp [maf_mafBlock_getMafLineArray_seqOnly, h0]
    · refine ⟨(mb.lines.filter (fun l => l.type = 's')).map (fun l => l.strand)
          ++ [Char.ofNat 0],
        by simp [maf_mafBlock_getStrandArray, h0], ?_, ?_, ?_⟩
      · simp [h]
      · simp
      · intro i hi
        rw [List.get?_append (by simp [← h, hi]), List.get?_map]

/-- Witness for C10 on a concrete two-sequence-line block (and the empty
block through the zero case of the same theorem). -/
theorem strandArray_zeroSequences_witness :
    blkC8.numberOfSequences =
      (blkC8.lines.filter (fun l => l.type = 's')).length ∧
    (maf_mafBlock_getStrandArray blkC8 = none ↔
      blkC8.numberOfSequences = 0) ∧
    (maf_mafBlock_getMafLineArray_seqOnly blkC8 = none ↔
      blkC8.numberOfSequences = 0) := by
  have h := strandArray_zeroSequences blkC8 (by decide)
  exact ⟨by decide, h.1, h.2.1⟩

/-- C5 counterexample: the strand field `+x` is not the one-character token
`+` or `-`, yet parsing succeeds (the code checks only `tkn[0]`). -/
theorem strand_exactToken_cex :
    (maf_newMafLineFromString sBadStrand 7).toOption.map
      (fun ml => ml.strand) = some '+' ∧
    (tokenize sBadStrand).get? 4 = some ['+', 'x'] := by decide

/-- C5 amended: for an `s` line with all seven fields present, parsing
succeeds iff the FIRST character of the strand token is `+` or `-` (that
character becomes the strand); otherwise it fails with a malformed-line
error carrying the 1-based line number. -/
theorem strand_firstChar_amended (s : String) (ln : Nat)
    (t0 t1 t2 t3 t4 t5 t6 : List Char) (ts : List (List Char))
    (hty : firstChar s = 's')
    (htok : tokenize s = t0 :: t1 :: t2 :: t3 :: t4 :: t5 :: t6 :: ts) :
    ((headCharL t4 = '+' ∨ headCharL t4 = '-') →
      ∃ ml, maf_newMafLineFromString s ln = .ok ml ∧
        ml.strand = headCharL t4) ∧
    (headCharL t4 ≠ '+' ∧ headCharL t4 ≠ '-' →
      maf_newMafLineFromString s ln =
        .error (.badFormat ln (strandErrMsg (headCharL t4)))) := by
  have key : maf_newMafLineFromString s ln =
      if headCharL t4 ≠ '-' ∧ headCharL t4 ≠ '+' then
        .error (.badFormat ln (strandErrMsg (headCharL t4)))
      else
        .ok { mkBaseLine s ln with
              species := t1
              start := u32 (strtoul10 t2)
              length := u32 (strtoul10 t3)
              strand := headCharL t4
              sourceLength := u32 (strtoul10 t5)
              sequence := t6 } := by
    unfold maf_newMafLineFromString
    rw [if_neg (not_ne_iff.mpr hty), htok]
  constructor
  · intro h
    rw [key, if_neg (by tauto)]
    exact ⟨_, rfl, rfl⟩
  · intro h
    rw [key, if_pos ⟨h.2, h.1⟩]

/-- Witness for the amended C5 at a concrete line with strand token `*x`:
the parse fails with the strand error at the given line number. -/
theorem strand_firstChar_amended_witness :
    firstChar sStarStrand = 's' ∧
    tokenize sStarStrand =
      [['s'], ['h', 'g'], ['0'], ['2'], ['*', 'x'], ['1', '0'], ['A', 'C']] ∧
    maf_newMafLineFromString sStarStrand 9 =
      .error (.badFormat 9 (strandErrMsg '*')) := by
  refine ⟨by decide, by decide, ?_⟩
  exact (strand_firstChar_amended sStarStrand 9
    (['s']) (['h', 'g']) (['0']) (['2']) (['*', 'x']) (['1', '0'])
    (['A', 'C']) [] (by decide) (by decide)).2 (by decide)

/-- C8: on the well-formed block `[a, s, e]` (counter matches the single
`s` line, `n = 1`), the sequence-matrix builder's inner skip loop runs
past the end of the line list (a NULL dereference, modelled `none`); on
the same block without the trailing non-sequence line it returns the
truncated/padded row. -/
theorem sequenceMatrix_nullDeref :
    blkC8.numberOfSequences =
      (blkC8.lines.filter (fun l => l.type = 's')).length ∧
    maf_mafBlock_getSequenceMatrix blkC8 1 4 = none ∧
    maf_mafBlock_getSequenceMatrix blkC8ok 1 4 =
      some [['A', 'C', Char.ofNat 0, Char.ofNat 0]] := by decide

/-- C9: on the canonical file `inC1`, the header block and the body block
both carry `lineNumber = 2` (the session counter when their read began)
while their first line records are at lines 1 and 3: the block's
`lineNumber` is not the line at which the block begins. -/
theorem blockLineNumber_divergence :
    (maf_readAll inC1).map
      (fun bs => bs.map
        (fun b => (b.lineNumber, b.lines.map (fun l => l.lineNumber)))) =
    .ok [(2, [1]), (2, [3, 4])] := rfl

end MafTools
